import Mathlib

/-!
Verification of the k8s-nameserver configuration pipeline
(`cmd/k8s-nameserver/main.go`).

The nameserver's hot-reload pipeline is embedded shallowly:

* The external parsing functions (`json.Unmarshal` into `TSHosts`,
  `dnsname.ToFQDN`, `netip.ParseAddr`) live outside this repository, so the
  model is parametric over a `Parsers` record: each parser is an arbitrary
  function returning `Except String _`.  Raw config bytes are `List Nat`,
  hostnames / FQDNs / parsed addresses are `String`s.
* The resolver (`resolver.Resolver`, the Host-Table Store) is external; its
  only use here is `SetConfig`, an atomic replace.  It is modelled as
  explicit state `Option ResolverConfig`: `none` means `SetConfig` has never
  been called, `some c` means `c` is the active configuration.
* Go maps are modelled as association lists (`List (String × List String)`);
  assignment `m[k] = v` is `mapInsert`, which overwrites the binding of `k`.
* The config reader's Go result pair `([]byte, error)` is modelled as
  `Except String (Option (List Nat))`: `.error` is a non-nil error,
  `.ok none` nil bytes with nil error, `.ok (some b)` bytes `b`.
-/

/-- FQDN constant from `main.go`: `tsnetRootDomains = []dnsname.FQDN{"ts.net", "ts.net."}`. -/
def tsnetRootDomains : List String := ["ts.net", "ts.net."]

/-- `operatorutils.TSHosts`: the deserialized form of the config file, a map
from hostname strings to lists of IP-address strings. -/
structure TSHosts where
  Hosts : List (String × List String)
deriving DecidableEq, Repr

/-- The external parsing functions used by `updateResolverConfig`.  They are
outside this repository (`encoding/json`, `tailscale.com/util/dnsname`,
`net/netip`), so the model quantifies over them. -/
structure Parsers where
  unmarshal : List Nat → Except String TSHosts
  toFQDN : String → Except String String
  parseAddr : String → Except String String

/-- `resolver.Config`: the validated configuration handed to the resolver via
`SetConfig`.  Only the two fields `main.go` sets are modelled. -/
structure ResolverConfig where
  LocalDomains : List String
  Hosts : List (String × List String)
deriving DecidableEq, Repr

/-- Go map assignment `m[k] = v`: overwrite the binding of `k`, or append it. -/
def mapInsert (k : String) (v : List String) : List (String × List String) → List (String × List String)
  | [] => [(k, v)]
  | (k₀, v₀) :: rest => if k₀ = k then (k, v) :: rest else (k₀, v₀) :: mapInsert k v rest

/-- Map lookup `m[k]` on the association-list model of a Go map. -/
def lookupKey (k : String) : List (String × List String) → Option (List String)
  | [] => none
  | (k₀, v) :: rest => if k₀ = k then some v else lookupKey k rest

/-- The inner loop of `updateResolverConfig` (main.go:236-243): for each
address string of one host, parse it; on failure return the error; on success
assign `c.Hosts[fqdn] = []netip.Addr{ip}`, overwriting any earlier value. -/
def addIPs (p : Parsers) (fqdn : String) : List String → List (String × List String) →
    Except String (List (String × List String))
  | [], acc => .ok acc
  | ip :: rest, acc =>
    match p.parseAddr ip with
    | .error e => .error e
    | .ok a => addIPs p fqdn rest (mapInsert fqdn [a] acc)

/-- The outer loop of `updateResolverConfig` (main.go:230-244): for each host
entry, normalize the hostname to an FQDN (failure aborts the whole reload),
then run the address loop. -/
def buildHosts (p : Parsers) : List (String × List String) → List (String × List String) →
    Except String (List (String × List String))
  | [], acc => .ok acc
  | (h, ips) :: rest, acc =>
    match p.toFQDN h with
    | .error e => .error e
    | .ok f =>
      match addIPs p f ips acc with
      | .error e => .error e
      | .ok acc₂ => buildHosts p rest acc₂

/-- `(*nameserver).updateResolverConfig` (main.go:204-248) as a state
transformer.  `rd` is the result of `n.configReader()`; `st` is the resolver
state (the last configuration passed to `SetConfig`, if any).  Returns the
function's `error` result together with the new resolver state; `SetConfig`
is the final step and runs only when every entry validated. -/
def updateResolverConfig (p : Parsers) (rd : Except String (Option (List Nat)))
    (st : Option ResolverConfig) : Except String Unit × Option ResolverConfig :=
  match rd with
  | .error e => (.error e, st)
  | .ok none => (.ok (), st)
  | .ok (some b) =>
    if b.length < 1 then (.ok (), st)
    else
      match p.unmarshal b with
      | .error e => (.error e, st)
      | .ok dnsCfg =>
        match buildHosts p dnsCfg.Hosts [] with
        | .error e => (.error e, st)
        | .ok hosts => (.ok (), some { LocalDomains := tsnetRootDomains, Hosts := hosts })

/-- Observable startup operations of `main`/`run`, in program order. -/
inductive Op where
  | reloadConfig
  | spawnWatcher
  | fatalExit
  | resolveUDPAddr
  | listenUDP
  | serveLoop
deriving DecidableEq, Repr

/-- The synchronous part of `(*nameserver).run` (main.go:175-198): one call to
`updateResolverConfig`; on error return the error without spawning the watch
goroutine, otherwise spawn it and return nil.  The trace records the
operations performed before returning. -/
def runSync (p : Parsers) (rd : Except String (Option (List Nat)))
    (st : Option ResolverConfig) :
    Except String Unit × Option ResolverConfig × List Op :=
  match updateResolverConfig p rd st with
  | (.error e, st₂) => (.error e, st₂, [Op.reloadConfig])
  | (.ok _, st₂) => (.ok (), st₂, [Op.reloadConfig, Op.spawnWatcher])

/-- The startup sequence of `main` (main.go:129-148): call `ns.run`; on error
`log.Fatalf` exits the process before `net.ResolveUDPAddr`/`net.ListenUDP`;
otherwise resolve the UDP address, open the listener and enter the serving
loop. -/
def mainStartupTrace (p : Parsers) (rd : Except String (Option (List Nat))) : List Op :=
  match runSync p rd none with
  | (.error _, _, t) => t ++ [Op.fatalExit]
  | (.ok _, _, t) => t ++ [Op.resolveUDPAddr, Op.listenUDP, Op.serveLoop]

/-- What a receive on the config-watch channel can yield: a signal string, or
the zero value delivered by a closed channel (Go: `v, ok := <-ch` with
`ok = false`; the code uses the form `<-ch` which discards both). -/
inductive ChanRecv where
  | msg (s : String)
  | closedRecv
deriving DecidableEq, Repr

/-- Which `select` case fires in one iteration of the watch loop. -/
inductive WatchEvent where
  | ctxDone
  | recv (r : ChanRecv)
deriving DecidableEq, Repr

/-- Outcome of one iteration of the watch loop. -/
structure WatchStepResult where
  exits : Bool
  cancelInvoked : Bool
  reloadAttempted : Bool
  newState : Option ResolverConfig
deriving DecidableEq, Repr

/-- One iteration of the background goroutine spawned by `run`
(main.go:181-196).  `case <-ctx.Done()` logs and returns.
`case <-n.configWatcher` fires both on a real signal and on a closed channel
(the receive discards the value and the ok flag); it runs
`updateResolverConfig` and, on error, calls `cancelF()` — but does not
return: the loop continues. -/
def watchStep (p : Parsers) (rd : Except String (Option (List Nat)))
    (st : Option ResolverConfig) (ev : WatchEvent) : WatchStepResult :=
  match ev with
  | .ctxDone => { exits := true, cancelInvoked := false, reloadAttempted := false, newState := st }
  | .recv _ =>
    match updateResolverConfig p rd st with
    | (.error _, st₂) =>
      { exits := false, cancelInvoked := true, reloadAttempted := true, newState := st₂ }
    | (.ok _, st₂) =>
      { exits := false, cancelInvoked := false, reloadAttempted := true, newState := st₂ }

/-- Result of `resolver.Resolver.Query`: response bytes plus an optional
non-fatal error. -/
structure QueryResult where
  bytes : List Nat
  err : Option String
deriving DecidableEq, Repr

/-- `(*nameserver).query` (main.go:200-202): delegates to `n.res.Query` with
transport "udp" and returns its result unchanged.  `resQuery` is the external
resolution engine. -/
def nsQuery (resQuery : List Nat → String → QueryResult)
    (payload : List Nat) (addr : String) : QueryResult :=
  resQuery payload addr

/-- A UDP write performed by the serving loop: the bytes and the destination. -/
structure UDPWrite where
  bytes : List Nat
  dest : String
deriving DecidableEq, Repr

/-- One per-datagram unit of work of the serving loop (main.go:156-168): call
`ns.query`; if it reported an error, only log it ("reply with the dnsAnswer
anyway"); then write the returned bytes back to the sender's address. -/
def serveUnit (resQuery : List Nat → String → QueryResult)
    (payload : List Nat) (addr : String) : UDPWrite :=
  let r := nsQuery resQuery payload addr
  { bytes := r.bytes, dest := addr }

/-! ### Map lemmas -/

theorem lookupKey_mapInsert_self (k : String) (v : List String)
    (m : List (String × List String)) : lookupKey k (mapInsert k v m) = some v := by
  induction m with
  | nil => simp [mapInsert, lookupKey]
  | cons kv rest ih =>
    obtain ⟨k₀, v₀⟩ := kv
    by_cases hk : k₀ = k
    · simp [mapInsert, lookupKey, hk]
    · simp [mapInsert, lookupKey, hk, ih]

theorem lookupKey_mapInsert_ne (k k₂ : String) (v : List String)
    (m : List (String × List String)) (hne : k ≠ k₂) :
    lookupKey k (mapInsert k₂ v m) = lookupKey k m := by
  have hne₂ : ¬ (k₂ = k) := fun h => hne h.symm
  induction m with
  | nil => simp [mapInsert, lookupKey, hne₂]
  | cons kv rest ih =>
    obtain ⟨k₀, v₀⟩ := kv
    by_cases hk : k₀ = k₂
    · subst hk
      simp [mapInsert, lookupKey, hne₂]
    · simp only [mapInsert, if_neg hk, lookupKey]
      by_cases hk₀ : k₀ = k
      · simp [lookupKey, hk₀]
      · simp [lookupKey, hk₀, ih]

theorem mem_mapInsert (kv : String × List String) (k : String) (v : List String)
    (m : List (String × List String)) (hmem : kv ∈ mapInsert k v m) :
    kv = (k, v) ∨ kv ∈ m := by
  induction m with
  | nil => simpa [mapInsert] using hmem
  | cons kv₀ rest ih =>
    obtain ⟨k₀, v₀⟩ := kv₀
    by_cases hk : k₀ = k
    · simp only [mapInsert, hk, if_pos rfl] at hmem
      rcases List.mem_cons.mp hmem with h | h
      · exact Or.inl h
      · exact Or.inr (List.mem_cons_of_mem _ h)
    · simp only [mapInsert, if_neg hk] at hmem
      rcases List.mem_cons.mp hmem with h | h
      · exact Or.inr (h ▸ List.mem_cons_self _ _)
      · rcases ih h with h₂ | h₂
        · exact Or.inl h₂
        · exact Or.inr (List.mem_cons_of_mem _ h₂)

/-! ### addIPs lemmas -/

theorem addIPs_ok_parsed (p : Parsers) (f : String) :
    ∀ (ips : List String) (acc acc₂ : List (String × List String)),
    addIPs p f ips acc = .ok acc₂ → ∀ ip ∈ ips, ∃ a, p.parseAddr ip = .ok a := by
  intro ips
  induction ips with
  | nil => intro acc acc₂ _ ip hip; exact absurd hip (List.not_mem_nil ip)
  | cons ip₀ rest ih =>
    intro acc acc₂ hok ip hip
    rcases hpa : p.parseAddr ip₀ with e | a
    · simp only [addIPs, hpa] at hok
      exact Except.noConfusion hok
    · simp only [addIPs, hpa] at hok
      rcases List.mem_cons.mp hip with h | h
      · exact ⟨a, h ▸ hpa⟩
      · exact ih _ _ hok ip h

theorem addIPs_lookup_ne (p : Parsers) (f : String) :
    ∀ (ips : List String) (acc acc₂ : List (String × List String)),
    addIPs p f ips acc = .ok acc₂ → ∀ k, k ≠ f → lookupKey k acc₂ = lookupKey k acc := by
  intro ips
  induction ips with
  | nil =>
    intro acc acc₂ hok k _
    simp only [addIPs] at hok
    cases hok
    rfl
  | cons ip₀ rest ih =>
    intro acc acc₂ hok k hk
    rcases hpa : p.parseAddr ip₀ with e | a
    · simp only [addIPs, hpa] at hok
      exact Except.noConfusion hok
    · simp only [addIPs, hpa] at hok
      rw [ih _ _ hok k hk, lookupKey_mapInsert_ne k f [a] acc hk]

theorem addIPs_lookup_last (p : Parsers) (f : String) :
    ∀ (ips : List String) (acc acc₂ : List (String × List String)) (ipL a : String),
    addIPs p f ips acc = .ok acc₂ → ips.getLast? = some ipL →
    p.parseAddr ipL = .ok a → lookupKey f acc₂ = some [a] := by
  intro ips
  induction ips with
  | nil => intro acc acc₂ ipL a _ hlast; simp at hlast
  | cons ip₀ rest ih =>
    intro acc acc₂ ipL a hok hlast hpl
    rcases hpa : p.parseAddr ip₀ with e | a₀
    · simp only [addIPs, hpa] at hok
      exact Except.noConfusion hok
    · simp only [addIPs, hpa] at hok
      cases rest with
      | nil =>
        simp only [addIPs] at hok
        cases hok
        have hip : ip₀ = ipL := by simpa using hlast
        subst hip
        rw [hpa] at hpl
        cases hpl
        apply lookupKey_mapInsert_self
      | cons ip₁ rest₂ =>
        rw [List.getLast?_cons_cons] at hlast
        exact ih _ _ ipL a hok hlast hpl

theorem addIPs_total (p : Parsers) (f : String) :
    ∀ (ips : List String) (acc : List (String × List String)),
    (∀ ip ∈ ips, ∃ a, p.parseAddr ip = .ok a) →
    ∃ acc₂, addIPs p f ips acc = .ok acc₂ := by
  intro ips
  induction ips with
  | nil => intro acc _; exact ⟨acc, rfl⟩
  | cons ip₀ rest ih =>
    intro acc hval
    obtain ⟨a, ha⟩ := hval ip₀ (List.mem_cons_self _ _)
    obtain ⟨acc₂, hacc₂⟩ := ih (mapInsert f [a] acc)
      (fun ip hip => hval ip (List.mem_cons_of_mem _ hip))
    refine ⟨acc₂, ?_⟩
    simp only [addIPs, ha]
    exact hacc₂

theorem addIPs_values (p : Parsers) (f : String)
    (P : String × List String → Prop) (hP : ∀ a, (∃ s, p.parseAddr s = .ok a) → P (f, [a])) :
    ∀ (ips : List String) (acc acc₂ : List (String × List String)),
    addIPs p f ips acc = .ok acc₂ → (∀ kv ∈ acc, P kv) → ∀ kv ∈ acc₂, P kv := by
  intro ips
  induction ips with
  | nil =>
    intro acc acc₂ hok hacc
    simp only [addIPs] at hok
    cases hok
    exact hacc
  | cons ip₀ rest ih =>
    intro acc acc₂ hok hacc
    rcases hpa : p.parseAddr ip₀ with e | a
    · simp only [addIPs, hpa] at hok
      exact Except.noConfusion hok
    · simp only [addIPs, hpa] at hok
      refine ih _ _ hok ?_
      intro kv hkv
      rcases mem_mapInsert kv f [a] acc hkv with h | h
      · exact h ▸ hP a ⟨ip₀, hpa⟩
      · exact hacc kv h

/-! ### buildHosts lemmas -/

theorem buildHosts_ok_valid (p : Parsers) :
    ∀ (entries acc m : List (String × List String)),
    buildHosts p entries acc = .ok m →
    ∀ e ∈ entries, (∃ f, p.toFQDN e.1 = .ok f) ∧ ∀ ip ∈ e.2, ∃ a, p.parseAddr ip = .ok a := by
  intro entries
  induction entries with
  | nil => intro acc m _ e he; exact absurd he (List.not_mem_nil e)
  | cons hd rest ih =>
    obtain ⟨h, ips⟩ := hd
    intro acc m hok e he
    rcases hf : p.toFQDN h with msg | f
    · simp only [buildHosts, hf] at hok
      exact Except.noConfusion hok
    · simp only [buildHosts, hf] at hok
      rcases ha : addIPs p f ips acc with msg | acc₂
    -- the whole reload aborts if the address loop fails
      · rw [ha] at hok
        exact Except.noConfusion hok
      · rw [ha] at hok
        rcases List.mem_cons.mp he with hcase | hcase
        · subst hcase
          exact ⟨⟨f, hf⟩, addIPs_ok_parsed p f ips acc acc₂ ha⟩
        · exact ih _ _ hok e hcase

theorem buildHosts_lookup_untouched (p : Parsers) (f : String) :
    ∀ (entries acc m : List (String × List String)),
    buildHosts p entries acc = .ok m →
    (∀ e ∈ entries, p.toFQDN e.1 = .ok f → e.2 = ([] : List String)) →
    lookupKey f m = lookupKey f acc := by
  intro entries
  induction entries with
  | nil =>
    intro acc m hok _
    simp only [buildHosts] at hok
    cases hok
    rfl
  | cons hd rest ih =>
    obtain ⟨h, ips⟩ := hd
    intro acc m hok hemp
    rcases hf : p.toFQDN h with msg | f₀
    · simp only [buildHosts, hf] at hok
      exact Except.noConfusion hok
    · simp only [buildHosts, hf] at hok
      rcases ha : addIPs p f₀ ips acc with msg | acc₂
      · rw [ha] at hok
        exact Except.noConfusion hok
      · rw [ha] at hok
        have hrest : lookupKey f m = lookupKey f acc₂ :=
          ih _ _ hok (fun e he hef => hemp e (List.mem_cons_of_mem _ he) hef)
        by_cases hff : f₀ = f
        · subst hff
          have hnil : ips = [] := hemp (h, ips) (List.mem_cons_self _ _) hf
          subst hnil
          simp only [addIPs] at ha
          cases ha
          exact hrest
        · rw [hrest]
          exact addIPs_lookup_ne p f₀ ips acc acc₂ ha f (fun hh => hff hh.symm)

theorem buildHosts_lookup_last (p : Parsers) :
    ∀ (entries acc m : List (String × List String)) (h f ipL a : String) (ips : List String),
    buildHosts p entries acc = .ok m →
    (h, ips) ∈ entries →
    p.toFQDN h = .ok f →
    ips.getLast? = some ipL →
    p.parseAddr ipL = .ok a →
    (∀ e ∈ entries, p.toFQDN e.1 = .ok f → e = (h, ips)) →
    lookupKey f m = some [a] := by
  intro entries
  induction entries with
  | nil => intro acc m h f ipL a ips _ hmem; exact absurd hmem (List.not_mem_nil _)
  | cons hd rest ih =>
    obtain ⟨h₀, ips₀⟩ := hd
    intro acc m h f ipL a ips hok hmem hf hlast hpl huniq
    rcases hf₀ : p.toFQDN h₀ with msg | f₀
    · simp only [buildHosts, hf₀] at hok
      exact Except.noConfusion hok
    · simp only [buildHosts, hf₀] at hok
      rcases ha : addIPs p f₀ ips₀ acc with msg | acc₂
      · rw [ha] at hok
        exact Except.noConfusion hok
      · rw [ha] at hok
        by_cases hin : (h, ips) ∈ rest
        · exact ih _ _ h f ipL a ips hok hin hf hlast hpl
            (fun e he hef => huniq e (List.mem_cons_of_mem _ he) hef)
        · have hhd : (h, ips) = (h₀, ips₀) := by
            rcases List.mem_cons.mp hmem with hcase | hcase
            · exact hcase
            · exact absurd hcase hin
          obtain ⟨hh, hi⟩ := Prod.mk.injEq _ _ _ _ ▸ hhd
          subst hh
          subst hi
          have hff : f₀ = f := by
            rw [hf] at hf₀
            exact (Except.ok.injEq _ _ ▸ hf₀).symm
          subst hff
          have hacc₂ : lookupKey f₀ acc₂ = some [a] :=
            addIPs_lookup_last p f₀ ips acc acc₂ ipL a ha hlast hpl
          have hnone : ∀ e ∈ rest, p.toFQDN e.1 = .ok f₀ → e.2 = ([] : List String) := by
            intro e he hef
            exact absurd (huniq e (List.mem_cons_of_mem _ he) hef ▸ he) hin
          rw [buildHosts_lookup_untouched p f₀ rest acc₂ m hok hnone]
          exact hacc₂

theorem buildHosts_total (p : Parsers) :
    ∀ (entries acc : List (String × List String)),
    (∀ e ∈ entries, (∃ f, p.toFQDN e.1 = .ok f) ∧ ∀ ip ∈ e.2, ∃ a, p.parseAddr ip = .ok a) →
    ∃ m, buildHosts p entries acc = .ok m := by
  intro entries
  induction entries with
  | nil => intro acc _; exact ⟨acc, rfl⟩
  | cons hd rest ih =>
    obtain ⟨h, ips⟩ := hd
    intro acc hval
    obtain ⟨⟨f, hf⟩, hips⟩ := hval (h, ips) (List.mem_cons_self _ _)
    obtain ⟨acc₂, ha⟩ := addIPs_total p f ips acc hips
    obtain ⟨m, hm⟩ := ih acc₂ (fun e he => hval e (List.mem_cons_of_mem _ he))
    refine ⟨m, ?_⟩
    simp only [buildHosts, hf, ha]
    exact hm

theorem buildHosts_values (p : Parsers) :
    ∀ (entries acc m : List (String × List String)),
    buildHosts p entries acc = .ok m →
    (∀ kv ∈ acc, ∃ a, (∃ s, p.parseAddr s = .ok a) ∧ kv.2 = [a]) →
    ∀ kv ∈ m, ∃ a, (∃ s, p.parseAddr s = .ok a) ∧ kv.2 = [a] := by
  intro entries
  induction entries with
  | nil =>
    intro acc m hok hacc
    simp only [buildHosts] at hok
    cases hok
    exact hacc
  | cons hd rest ih =>
    obtain ⟨h, ips⟩ := hd
    intro acc m hok hacc
    rcases hf : p.toFQDN h with msg | f
    · simp only [buildHosts, hf] at hok
      exact Except.noConfusion hok
    · simp only [buildHosts, hf] at hok
      rcases ha : addIPs p f ips acc with msg | acc₂
      · rw [ha] at hok
        exact Except.noConfusion hok
      · rw [ha] at hok
        refine ih _ _ hok ?_
        exact addIPs_values p f (fun kv => ∃ a, (∃ s, p.parseAddr s = .ok a) ∧ kv.2 = [a])
          (fun a hs => ⟨a, hs, rfl⟩) ips acc acc₂ ha hacc

/-! ### Shape of a successful reload -/

theorem updateResolverConfig_ok_shape (p : Parsers) (b : List Nat) (st : Option ResolverConfig)
    (hb : 1 ≤ b.length)
    (hok : (updateResolverConfig p (.ok (some b)) st).1 = .ok ()) :
    ∃ cfg m, p.unmarshal b = .ok cfg ∧ buildHosts p cfg.Hosts [] = .ok m ∧
      updateResolverConfig p (.ok (some b)) st = (.ok (), some ⟨tsnetRootDomains, m⟩) := by
  have hlen : ¬ (b.length < 1) := by omega
  rcases hum : p.unmarshal b with msg | cfg
  · exfalso
    simp [updateResolverConfig, hlen, hum] at hok
  · rcases hm : buildHosts p cfg.Hosts [] with msg | m
    · exfalso
      simp [updateResolverConfig, hlen, hum, hm] at hok
    · exact ⟨cfg, m, rfl, hm, by simp [updateResolverConfig, hlen, hum, hm]⟩

/-! ### Concrete inputs used to exercise the theorems -/

/-- Concrete parser instances: a toy deserializer with three known inputs and
toy FQDN/address validators, used to instantiate the parametric theorems on
closed inputs. -/
def demoParsers : Parsers where
  unmarshal b :=
    if b = [1] then .ok ⟨[("foo", ["ip1", "ip2"])]⟩
    else if b = [2] then .ok ⟨[("empty", []), ("foo", ["ip1"])]⟩
    else if b = [3] then .ok ⟨[("bad name", ["ip1"])]⟩
    else .error "bad json"
  toFQDN h :=
    if h = "foo" then .ok "foo."
    else if h = "empty" then .ok "empty."
    else .error "invalid fqdn"
  parseAddr s :=
    if s = "ip1" then .ok "ip1"
    else if s = "ip2" then .ok "ip2"
    else .error "invalid ip"

/-- A sample active configuration holding one host record. -/
def cfgFoo : ResolverConfig where
  LocalDomains := tsnetRootDomains
  Hosts := [("foo.", ["ip1"])]

/-! ### Claims -/

/-- C1: if some host entry fails FQDN normalization or address parsing, or the
JSON is malformed, `updateResolverConfig` returns an error and `SetConfig` is
never called: the active configuration is exactly what it was before, so no
entry of the failing input becomes resolvable. -/
theorem updateResolverConfig_invalid_entry_rejects_whole_reload
    (p : Parsers) (b : List Nat) (st : Option ResolverConfig)
    (hb : 1 ≤ b.length)
    (hbad : (∃ msg, p.unmarshal b = .error msg) ∨
      ∃ cfg, p.unmarshal b = .ok cfg ∧
        ((∃ e ∈ cfg.Hosts, ∃ msg, p.toFQDN e.1 = .error msg) ∨
         (∃ e ∈ cfg.Hosts, ∃ ip ∈ e.2, ∃ msg, p.parseAddr ip = .error msg))) :
    ∃ msg, updateResolverConfig p (.ok (some b)) st = (.error msg, st) := by
  have hlen : ¬ (b.length < 1) := by omega
  rcases hbad with ⟨msg, hum⟩ | ⟨cfg, hum, hbad₂⟩
  · exact ⟨msg, by simp [updateResolverConfig, hlen, hum]⟩
  · rcases hm : buildHosts p cfg.Hosts [] with msg | m
    · exact ⟨msg, by simp [updateResolverConfig, hlen, hum, hm]⟩
    · exfalso
      have hval := buildHosts_ok_valid p cfg.Hosts [] m hm
      rcases hbad₂ with ⟨e, he, msg, hef⟩ | ⟨e, he, ip, hip, msg, hpa⟩
      · obtain ⟨⟨f, hf⟩, _⟩ := hval e he
        rw [hf] at hef
        exact Except.noConfusion hef
      · obtain ⟨_, hips⟩ := hval e he
        obtain ⟨a, ha⟩ := hips ip hip
        rw [ha] at hpa
        exact Except.noConfusion hpa

theorem updateResolverConfig_invalid_entry_rejects_whole_reload_witness :
    ∃ msg, updateResolverConfig demoParsers (.ok (some [3])) none = (.error msg, none) :=
  updateResolverConfig_invalid_entry_rejects_whole_reload demoParsers [3] none (by decide)
    (Or.inr ⟨⟨[("bad name", ["ip1"])]⟩, rfl,
      Or.inl ⟨("bad name", ["ip1"]), List.mem_cons_self _ _, "invalid fqdn", rfl⟩⟩)

/-- C2 (counterexample): with an empty/absent raw config, `updateResolverConfig`
returns nil but applies nothing — the store can still hold previous host
records, refuting "the Host-Table Store holds a configuration with no host
records". -/
theorem updateResolverConfig_empty_config_counterexample :
    updateResolverConfig demoParsers (.ok none) (some cfgFoo) = (.ok (), some cfgFoo) ∧
    cfgFoo.Hosts ≠ [] := by
  constructor
  · rfl
  · simp [cfgFoo]

/-- C2 (amended): for every empty or absent raw config, `updateResolverConfig`
returns nil (not an error) but constructs and applies no ResolverConfig:
`SetConfig` is not called and the store's active configuration is unchanged
(at startup it simply remains empty). -/
theorem updateResolverConfig_empty_config_no_publish
    (p : Parsers) (st : Option ResolverConfig) (ob : Option (List Nat))
    (hempty : ob = none ∨ ∃ b, ob = some b ∧ b.length < 1) :
    updateResolverConfig p (.ok ob) st = (.ok (), st) := by
  rcases hempty with rfl | ⟨b, rfl, hb⟩
  · rfl
  · simp [updateResolverConfig, hb]

theorem updateResolverConfig_empty_config_no_publish_witness :
    updateResolverConfig demoParsers (.ok none) (some cfgFoo) = (.ok (), some cfgFoo) :=
  updateResolverConfig_empty_config_no_publish demoParsers (some cfgFoo) none (Or.inl rfl)

/-- C3: when a hostname maps to two or more address strings and the reload
succeeds, the published configuration maps its normalized FQDN to the
singleton list holding only the last address; earlier addresses are
discarded. -/
theorem updateResolverConfig_last_address_wins
    (p : Parsers) (b : List Nat) (st : Option ResolverConfig) (cfg : TSHosts)
    (h f ipL a : String) (ips : List String)
    (hb : 1 ≤ b.length)
    (hum : p.unmarshal b = .ok cfg)
    (hmem : (h, ips) ∈ cfg.Hosts)
    (_hlen : 2 ≤ ips.length)
    (hf : p.toFQDN h = .ok f)
    (hlast : ips.getLast? = some ipL)
    (hpl : p.parseAddr ipL = .ok a)
    (huniq : ∀ e ∈ cfg.Hosts, p.toFQDN e.1 = .ok f → e = (h, ips))
    (hok : (updateResolverConfig p (.ok (some b)) st).1 = .ok ()) :
    ∃ c, (updateResolverConfig p (.ok (some b)) st).2 = some c ∧
      lookupKey f c.Hosts = some [a] := by
  obtain ⟨cfg₂, m, hum₂, hm, heq⟩ := updateResolverConfig_ok_shape p b st hb hok
  rw [hum] at hum₂
  cases hum₂
  refine ⟨⟨tsnetRootDomains, m⟩, by rw [heq], ?_⟩
  exact buildHosts_lookup_last p cfg.Hosts [] m h f ipL a ips hm hmem hf hlast hpl huniq

theorem updateResolverConfig_last_address_wins_witness :
    ∃ c, (updateResolverConfig demoParsers (.ok (some [1])) none).2 = some c ∧
      lookupKey "foo." c.Hosts = some ["ip2"] :=
  updateResolverConfig_last_address_wins demoParsers [1] none ⟨[("foo", ["ip1", "ip2"])]⟩
    "foo" "foo." "ip2" "ip2" ["ip1", "ip2"] (by decide) rfl
    (List.mem_cons_self _ _) (by decide) rfl rfl rfl
    (fun e he _ => List.mem_singleton.mp he) rfl

/-- C4: every configuration published by a successful reload has
`LocalDomains` equal to the fixed built-in `tsnetRootDomains =
["ts.net", "ts.net."]`, independent of the input bytes, and non-empty even
when the published `Hosts` map is empty. -/
theorem updateResolverConfig_localDomains_fixed
    (p : Parsers) (b : List Nat) (st : Option ResolverConfig)
    (hb : 1 ≤ b.length)
    (hok : (updateResolverConfig p (.ok (some b)) st).1 = .ok ()) :
    ∃ c, (updateResolverConfig p (.ok (some b)) st).2 = some c ∧
      c.LocalDomains = tsnetRootDomains ∧ c.LocalDomains ≠ [] ∧
      tsnetRootDomains = ["ts.net", "ts.net."] := by
  obtain ⟨cfg, m, _, _, heq⟩ := updateResolverConfig_ok_shape p b st hb hok
  refine ⟨⟨tsnetRootDomains, m⟩, by rw [heq], rfl, ?_, rfl⟩
  simp [tsnetRootDomains]

theorem updateResolverConfig_localDomains_fixed_witness :
    ∃ c, (updateResolverConfig demoParsers (.ok (some [1])) none).2 = some c ∧
      c.LocalDomains = tsnetRootDomains ∧ c.LocalDomains ≠ [] ∧
      tsnetRootDomains = ["ts.net", "ts.net."] :=
  updateResolverConfig_localDomains_fixed demoParsers [1] none (by decide) rfl

/-- C5: the synchronous part of `run` performs exactly one reload before
returning; when that initial reload fails, `run` returns the error and `main`
exits fatally before the UDP listener is created, so the server never listens
or serves. -/
theorem runSync_one_reload_and_fatal_gate (p : Parsers)
    (rd : Except String (Option (List Nat))) :
    ((runSync p rd none).2.2).count Op.reloadConfig = 1 ∧
    ∀ e, (updateResolverConfig p rd none).1 = .error e →
      (runSync p rd none).1 = .error e ∧
      Op.listenUDP ∉ mainStartupTrace p rd ∧
      Op.serveLoop ∉ mainStartupTrace p rd ∧
      Op.fatalExit ∈ mainStartupTrace p rd := by
  rcases hu : updateResolverConfig p rd none with ⟨r, st₂⟩
  cases r with
  | error e₀ =>
    refine ⟨by simp [runSync, hu], ?_⟩
    intro e he
    simp only [Except.error.injEq] at he
    subst he
    refine ⟨by simp [runSync, hu], ?_, ?_, ?_⟩
    · simp [mainStartupTrace, runSync, hu]
    · simp [mainStartupTrace, runSync, hu]
    · simp [mainStartupTrace, runSync, hu]
  | ok u =>
    refine ⟨by simp [runSync, hu], ?_⟩
    intro e he
    exact absurd he (by simp)

theorem runSync_one_reload_and_fatal_gate_witness :
    ((runSync demoParsers (.error "io error") none).2.2).count Op.reloadConfig = 1 ∧
    (runSync demoParsers (.error "io error") none).1 = .error "io error" ∧
    Op.listenUDP ∉ mainStartupTrace demoParsers (.error "io error") ∧
    Op.serveLoop ∉ mainStartupTrace demoParsers (.error "io error") ∧
    Op.fatalExit ∈ mainStartupTrace demoParsers (.error "io error") := by
  obtain ⟨h₁, h₂⟩ := runSync_one_reload_and_fatal_gate demoParsers (.error "io error")
  exact ⟨h₁, h₂ "io error" rfl⟩

/-- C6: in the background watch loop, a config-change signal whose reload
fails causes the process-wide cancellation function to be invoked. -/
theorem watchStep_failed_reload_invokes_cancel
    (p : Parsers) (rd : Except String (Option (List Nat)))
    (st : Option ResolverConfig) (e : String) (r : ChanRecv)
    (hfail : (updateResolverConfig p rd st).1 = .error e) :
    (watchStep p rd st (.recv r)).cancelInvoked = true ∧
    (watchStep p rd st (.recv r)).reloadAttempted = true := by
  rcases hu : updateResolverConfig p rd st with ⟨res, st₂⟩
  rw [hu] at hfail
  simp only at hfail
  cases res with
  | error e₀ => exact ⟨by simp [watchStep, hu], by simp [watchStep, hu]⟩
  | ok u => exact absurd hfail (by simp)

theorem watchStep_failed_reload_invokes_cancel_witness :
    (watchStep demoParsers (.ok (some [9])) none (.recv (.msg "config update"))).cancelInvoked = true ∧
    (watchStep demoParsers (.ok (some [9])) none (.recv (.msg "config update"))).reloadAttempted = true :=
  watchStep_failed_reload_invokes_cancel demoParsers (.ok (some [9])) none "bad json"
    (.msg "config update") rfl

/-- C7: `nameserver.query` returns exactly the bytes and error produced by the
resolution engine's `Query`, unchanged, and the serving loop writes the
returned bytes back to the sender's address regardless of whether an error
was reported. -/
theorem nsQuery_delegates_and_reply_always_sent
    (resQuery : List Nat → String → QueryResult) (payload : List Nat) (addr : String) :
    nsQuery resQuery payload addr = resQuery payload addr ∧
    (serveUnit resQuery payload addr).bytes = (resQuery payload addr).bytes ∧
    (serveUnit resQuery payload addr).dest = addr :=
  ⟨rfl, rfl, rfl⟩

/-- C8: reload is idempotent — when `updateResolverConfig` succeeds, running
it again on the same raw bytes from the resulting state succeeds and leaves
the Host-Table Store state exactly as after the first run. -/
theorem updateResolverConfig_idempotent
    (p : Parsers) (rd : Except String (Option (List Nat))) (st : Option ResolverConfig)
    (hok : (updateResolverConfig p rd st).1 = .ok ()) :
    updateResolverConfig p rd ((updateResolverConfig p rd st).2) =
      (.ok (), (updateResolverConfig p rd st).2) := by
  cases rd with
  | error e => exact absurd hok (by simp [updateResolverConfig])
  | ok ob =>
    cases ob with
    | none => rfl
    | some b =>
      by_cases hb : b.length < 1
      · simp [updateResolverConfig, hb]
      · rcases hum : p.unmarshal b with msg | cfg
        · exact absurd hok (by simp [updateResolverConfig, hb, hum])
        · rcases hm : buildHosts p cfg.Hosts [] with msg | m
          · exact absurd hok (by simp [updateResolverConfig, hb, hum, hm])
          · simp [updateResolverConfig, hb, hum, hm]

theorem updateResolverConfig_idempotent_witness :
    updateResolverConfig demoParsers (.ok (some [1]))
        ((updateResolverConfig demoParsers (.ok (some [1])) none).2) =
      (.ok (), (updateResolverConfig demoParsers (.ok (some [1])) none).2) :=
  updateResolverConfig_idempotent demoParsers (.ok (some [1])) none rfl

/-- C9 (counterexample): a receive from the closed config-signal channel does
not make the watch loop exit — the loop keeps running and triggers a reload,
because `case <-n.configWatcher` discards the channel's closed flag. -/
theorem watchStep_closed_channel_keeps_running :
    (watchStep demoParsers (.ok (some [1])) none (.recv .closedRecv)).exits = false ∧
    (watchStep demoParsers (.ok (some [1])) none (.recv .closedRecv)).reloadAttempted = true := by
  constructor
  · rfl
  · rfl

/-- C9 (amended): the watch loop iteration exits exactly when the cancellation
context is done; a receive on the signal channel — a real signal or the zero
value of a closed channel — never exits the loop and always attempts a
reload. -/
theorem watchStep_exits_iff_ctxDone (p : Parsers) (rd : Except String (Option (List Nat)))
    (st : Option ResolverConfig) (ev : WatchEvent) :
    ((watchStep p rd st ev).exits = true ↔ ev = WatchEvent.ctxDone) ∧
    (∀ r, ev = WatchEvent.recv r → (watchStep p rd st ev).reloadAttempted = true) := by
  cases ev with
  | ctxDone =>
    refine ⟨by simp [watchStep], ?_⟩
    intro r hr
    exact absurd hr (by simp)
  | recv r =>
    rcases hu : updateResolverConfig p rd st with ⟨res, st₂⟩
    cases res with
    | error e => exact ⟨by simp [watchStep, hu], fun _ _ => by simp [watchStep, hu]⟩
    | ok u => exact ⟨by simp [watchStep, hu], fun _ _ => by simp [watchStep, hu]⟩

theorem watchStep_exits_iff_ctxDone_witness :
    ((watchStep demoParsers (.ok (some [1])) none (.recv (.msg "s"))).exits = true ↔
      WatchEvent.recv (.msg "s") = WatchEvent.ctxDone) ∧
    (∀ r, WatchEvent.recv (.msg "s") = WatchEvent.recv r →
      (watchStep demoParsers (.ok (some [1])) none (.recv (.msg "s"))).reloadAttempted = true) :=
  watchStep_exits_iff_ctxDone demoParsers (.ok (some [1])) none (.recv (.msg "s"))

/-- C10: a host entry with an empty address array does not fail the reload and
is simply omitted from the published `Hosts` map; every value of the
published map is a non-empty (singleton) list of successfully parsed
addresses. -/
theorem updateResolverConfig_empty_addr_entry_omitted
    (p : Parsers) (b : List Nat) (st : Option ResolverConfig) (cfg : TSHosts)
    (h f : String)
    (hb : 1 ≤ b.length)
    (hum : p.unmarshal b = .ok cfg)
    (_hmem : (h, ([] : List String)) ∈ cfg.Hosts)
    (_hf : p.toFQDN h = .ok f)
    (hvalid : ∀ e ∈ cfg.Hosts,
      (∃ g, p.toFQDN e.1 = .ok g) ∧ ∀ ip ∈ e.2, ∃ a, p.parseAddr ip = .ok a)
    (hnof : ∀ e ∈ cfg.Hosts, p.toFQDN e.1 = .ok f → e.2 = ([] : List String)) :
    ∃ c, updateResolverConfig p (.ok (some b)) st = (.ok (), some c) ∧
      lookupKey f c.Hosts = none ∧
      ∀ kv ∈ c.Hosts, kv.2 ≠ ([] : List String) := by
  have hlen : ¬ (b.length < 1) := by omega
  obtain ⟨m, hm⟩ := buildHosts_total p cfg.Hosts [] hvalid
  refine ⟨⟨tsnetRootDomains, m⟩, by simp [updateResolverConfig, hlen, hum, hm], ?_, ?_⟩
  · rw [buildHosts_lookup_untouched p f cfg.Hosts [] m hm hnof]
    rfl
  · intro kv hkv
    obtain ⟨a, _, hkva⟩ := buildHosts_values p cfg.Hosts [] m hm
      (fun kv₂ hkv₂ => absurd hkv₂ (List.not_mem_nil kv₂)) kv hkv
    rw [hkva]
    simp

theorem updateResolverConfig_empty_addr_entry_omitted_witness :
    ∃ c, updateResolverConfig demoParsers (.ok (some [2])) none = (.ok (), some c) ∧
      lookupKey "empty." c.Hosts = none ∧
      ∀ kv ∈ c.Hosts, kv.2 ≠ ([] : List String) := by
  refine updateResolverConfig_empty_addr_entry_omitted demoParsers [2] none
    ⟨[("empty", []), ("foo", ["ip1"])]⟩ "empty" "empty." (by decide) rfl
    (List.mem_cons_self _ _) rfl ?_ ?_
  · intro e he
    rcases List.mem_cons.mp he with rfl | he₂
    · exact ⟨⟨"empty.", rfl⟩, fun ip hip => absurd hip (List.not_mem_nil ip)⟩
    · rcases List.mem_cons.mp he₂ with rfl | he₃
      · refine ⟨⟨"foo.", rfl⟩, ?_⟩
        intro ip hip
        rcases List.mem_cons.mp hip with rfl | h₂
        · exact ⟨"ip1", rfl⟩
        · exact absurd h₂ (List.not_mem_nil ip)
      · exact absurd he₃ (List.not_mem_nil e)
  · intro e he hef
    rcases List.mem_cons.mp he with rfl | he₂
    · rfl
    · rcases List.mem_cons.mp he₂ with rfl | he₃
      · exact absurd (Except.ok.inj hef) (by decide)
      · exact absurd he₃ (List.not_mem_nil e)
